import Mathlib

/-!
Verification of the maw-mcp workflow coordinator.

This file gives a shallow embedding in Lean of the decision logic of the
repository (src/github.py, src/state.py, src/server.py) and proves, or
refutes, the specification claims about it.

Conventions of the embedding:
* Python strings are Lean `String`; string algorithms (split, strip,
  startswith, int parsing, lexicographic comparison) are modelled as
  executable functions on `String.toList`.
* Python `int` is Lean `Int`; Python `None`-able values are `Option`.
* Python dict-shaped records are Lean structures holding exactly the keys
  the code reads or writes.
* File-system and subprocess effects are passed in explicitly: the result
  of the `AGENT_PROMPTS` glob, the existence checks, and the wall-clock
  timestamps are parameters of the state-transition functions, and the
  effect of `save_state` is reported as an `Option WorkflowState`
  (`none` when the handler returns without calling `save_state`).
-/

namespace Maw

/-! ## Python string primitives -/

/-- Whitespace characters stripped by Python `int()` before parsing
(space, tab, newline, carriage return, vertical tab, form feed). -/
def isPySpace (c : Char) : Bool :=
  c = ' ' || c = '\t' || c = '\n' || c = '\r' || c = '\x0b' || c = '\x0c'

/-- Model of Python `str.split(sep)` for a one-character separator, on the
character list: splits at every occurrence, keeping empty fragments, and
always returns at least one fragment. -/
def splitOnChar (sep : Char) : List Char → List (List Char)
  | [] => [[]]
  | c :: rest =>
    let r := splitOnChar sep rest
    if c = sep then [] :: r
    else
      match r with
      | [] => [[c]]
      | h :: t => (c :: h) :: t

/-- Boolean prefix test on character lists: model of Python
`str.startswith` after `String.toList`. -/
def isPrefixOfB : List Char → List Char → Bool
  | [], _ => true
  | _ :: _, [] => false
  | a :: as, b :: bs => a = b && isPrefixOfB as bs

/-- Boolean suffix test on character lists, used to model the `*.md` part
of the task-file glob. -/
def isSuffixOfB (pat cs : List Char) : Bool :=
  isPrefixOfB pat.reverse cs.reverse

/-- Numeric value of a digit run, ignoring underscores (Python allows
`1_000`-style separators inside integer literals accepted by `int()`). -/
def digitsVal (cs : List Char) : Nat :=
  (cs.filter (fun c => c ≠ '_')).foldl (fun a c => 10 * a + (c.toNat - 48)) 0

/-- Acceptor for the tail of a Python integer-literal digit run: after the
first digit, each underscore must be followed by a digit, and every other
character must be a digit. -/
def pyDigitsTail : List Char → Bool
  | [] => true
  | '_' :: d :: rest => d.isDigit && pyDigitsTail rest
  | ['_'] => false
  | d :: rest => d.isDigit && pyDigitsTail rest

/-- Unsigned body of Python `int()`: nonempty, first character a digit,
rest accepted by `pyDigitsTail`. Returns the parsed value. -/
def pyIntBody? : List Char → Option Nat
  | [] => none
  | d :: rest =>
    if d.isDigit && pyDigitsTail rest then some (digitsVal (d :: rest)) else none

/-- Strip leading and trailing Python whitespace from a character list. -/
def trimPyWS (cs : List Char) : List Char :=
  ((cs.dropWhile isPySpace).reverse.dropWhile isPySpace).reverse

/-- Model of Python `int(s)` on a character list: strip surrounding
whitespace, accept one optional sign, then an ASCII digit run with
optional single underscores between digits; `none` models `ValueError`.
(Non-ASCII digits accepted by CPython are out of scope: no input of the
repository uses them.) -/
def pyIntOfChars? (cs : List Char) : Option Int :=
  match trimPyWS cs with
  | '+' :: rest => (pyIntBody? rest).map Int.ofNat
  | '-' :: rest => (pyIntBody? rest).map (fun n => -(n : Int))
  | rest => (pyIntBody? rest).map Int.ofNat

/-- Model of Python `int(s)` on a `String`. -/
def pyInt? (s : String) : Option Int :=
  pyIntOfChars? s.toList

/-- Python truthiness of an optional integer: `None` and `0` are falsy. -/
def intTruthy : Option Int → Bool
  | none => false
  | some n => n ≠ 0

/-- Code-point lexicographic comparison of character lists: model of
Python string `<=` used by `sorted` on file names. -/
def charListLe : List Char → List Char → Bool
  | [], _ => true
  | _ :: _, [] => false
  | a :: as, b :: bs => if a < b then true else if b < a then false else charListLe as bs

/-- Model of Python string `<=` (code-point lexicographic). -/
def strLe (s t : String) : Bool :=
  charListLe s.toList t.toList

/-! ## github.py: pull-request records, agent extraction, conflicts -/

/-- The fields of a pull-request JSON record that the code reads, plus the
`agent_num` key that `get_agent_prs` adds (`none` models the key being
absent from the dict). File entries contribute only their `path` string,
which is what `detect_conflicts` and the dashboard extract from them. -/
structure PRRec where
  number : Int
  headRefName : String := ""
  files : List String := []
  agent_num : Option Int := none
deriving DecidableEq, Repr

/-- The agent-number extraction inside `get_agent_prs`: for a branch that
starts with `agent/`, take `branch.split("/")[1].split("-")[0]` and parse
it with `int(...)`; `none` models the `except (ValueError, IndexError)`
path that skips the PR. -/
def agentNumOf (branch : String) : Option Int :=
  let cs := branch.toList
  if isPrefixOfB "agent/".toList cs then
    match (splitOnChar '/' cs).get? 1 with
    | none => none
    | some seg =>
      match (splitOnChar '-' seg).get? 0 with
      | none => none
      | some tok => pyIntOfChars? tok
  else none

/-- The filtering loop of `get_agent_prs`: PRs whose branch yields an
agent number are appended, augmented with `agent_num`; the rest are
skipped. -/
def extractLoop (prs : List PRRec) : List PRRec :=
  prs.foldl
    (fun acc pr =>
      match agentNumOf pr.headRefName with
      | some n => acc ++ [{ pr with agent_num := some n }]
      | none => acc)
    []

/-- Sort key of `get_agent_prs`: `x.get("agent_num", 999)`. -/
def sentinelKey (pr : PRRec) : Int :=
  pr.agent_num.getD 999

/-- Ordered insertion for a Boolean non-strict comparison; with a
non-strict comparison the element being inserted goes before equal
elements already in the list, which makes the sort below stable. -/
def orderedInsertB (le : α → α → Bool) (a : α) : List α → List α
  | [] => [a]
  | b :: l => if le a b then a :: b :: l else b :: orderedInsertB le a l

/-- Insertion sort for a Boolean non-strict comparison. A stable sort is
extensionally unique, so this is a faithful model of Python
`list.sort` / `sorted` with a key function. -/
def insertionSortB (le : α → α → Bool) : List α → List α
  | [] => []
  | b :: l => orderedInsertB le b (insertionSortB le l)

/-- The comparison used by `agent_prs.sort(key=lambda x: x.get("agent_num", 999))`. -/
def sentinelLe (a b : PRRec) : Bool :=
  decide (sentinelKey a ≤ sentinelKey b)

/-- The pure core of `get_agent_prs` (after the gateway fetched `prs`):
filter and augment agent-branch PRs, then stable-sort ascending by the
`agent_num` key with sentinel `999` for missing keys. -/
def get_agent_prs_pure (prs : List PRRec) : List PRRec :=
  insertionSortB sentinelLe (extractLoop prs)

/-- One entry of the `detect_conflicts` output: a file path and the list
of PR numbers that modify it. -/
structure ConflictRec where
  file : String
  prs : List Int
deriving DecidableEq, Repr

/-- Insertion-ordered update of the `file_to_prs` dict: append `n` to the
list at key `path`, creating the key at the end if absent. -/
def updateMap : List (String × List Int) → String → Int → List (String × List Int)
  | [], path, n => [(path, [n])]
  | (q, ns) :: rest, path, n =>
    if q = path then (q, ns ++ [n]) :: rest else (q, ns) :: updateMap rest path n

/-- The `file_to_prs` mapping built by `detect_conflicts`, in dict
insertion order (Python 3.7+ dicts preserve it). -/
def buildFileMap (prs : List PRRec) : List (String × List Int) :=
  prs.foldl (fun m pr => pr.files.foldl (fun m2 path => updateMap m2 path pr.number) m) []

/-- Model of `detect_conflicts`: emit one record per file whose PR-number
list has length greater than one, in mapping insertion order. -/
def detect_conflicts (prs : List PRRec) : List ConflictRec :=
  ((buildFileMap prs).filter (fun e => e.2.length > 1)).map (fun e => ⟨e.1, e.2⟩)

/-- Claim-side predicate of C1: every file path is touched by at most one
PR of the list (a PR touches a path when the path occurs in its `files`
list; each list element counts as one PR). -/
def atMostOnePRPerFile (prs : List PRRec) : Prop :=
  ∀ p : String, (prs.filter (fun pr => pr.files.contains p)).length ≤ 1

/-- Total number of occurrences of path `p` across all file lists of
`prs`, counting multiplicity. -/
def totalCount (prs : List PRRec) (p : String) : Nat :=
  (prs.map (fun pr => pr.files.count p)).sum

/-- First-match lookup in the association-list model of the
`file_to_prs` dict; `[]` when the key is absent. -/
def lookupL : List (String × List Int) → String → List Int
  | [], _ => []
  | (q, ns) :: rest, p => if q = p then ns else lookupL rest p

/-- Keys of the association-list dict model. -/
def keysL (m : List (String × List Int)) : List String :=
  m.map (fun e => e.1)

/-! ## server.py: merge sequencer (handle_integrate) -/

/-- One element of the `agents_info` list consumed by the merge-order
section of `handle_integrate`: `(agent_num, role, pr_number)`. -/
structure AgentEntry where
  num : Int
  role : String
  pr : Option Int := none
deriving DecidableEq, Repr

/-- The five merge-order categories of `handle_integrate`. -/
inductive Bucket where
  | docs
  | tests
  | backend
  | frontend
  | other
deriving DecidableEq, Repr

/-- Substring occurrence on character lists: model of the Python
`needle in haystack` test for strings. -/
def containsSub (needle : List Char) : List Char → Bool
  | [] => isPrefixOfB needle []
  | c :: rest => isPrefixOfB needle (c :: rest) || containsSub needle rest

/-- Model of Python `pat in s` for strings. -/
def strContains (s pat : String) : Bool :=
  containsSub pat.toList s.toList

/-- ASCII lower-casing of one character (the roles handled by the code
are ASCII, where Python `str.lower` is exactly this map). -/
def pyLowerChar (c : Char) : Char :=
  if 'A' ≤ c && c ≤ 'Z' then Char.ofNat (c.toNat + 32) else c

/-- Model of Python `str.lower` on ASCII strings. -/
def pyLower (s : String) : String :=
  String.mk (s.toList.map pyLowerChar)

/-- The if/elif role classification of `handle_integrate` (first match
wins, case-insensitive substring tests on the role). -/
def classifyRole (role : String) : Bucket :=
  let r := pyLower role
  if strContains r "doc" || strContains r "writer" || strContains r "deploy" then .docs
  else if strContains r "test" || strContains r "qa" || strContains r "integration" then .tests
  else if strContains r "backend" || strContains r "api" || strContains r "security" ||
      strContains r "database" || strContains r "logging" then .backend
  else if strContains r "frontend" || strContains r "ui" || strContains r "interface" ||
      strContains r "offline" then .frontend
  else .other

/-- Accumulator of the categorisation loop: the five bucket lists
(`docs_agents`, `test_agents`, `backend_agents`, `frontend_agents`,
`other_agents`). -/
structure BucketAcc where
  docs : List AgentEntry := []
  tests : List AgentEntry := []
  backend : List AgentEntry := []
  frontend : List AgentEntry := []
  other : List AgentEntry := []
deriving DecidableEq, Repr

/-- The categorisation loop of `handle_integrate`: each entry is appended
to the bucket list chosen by the first matching rule. -/
def bucketLoop (agents : List AgentEntry) : BucketAcc :=
  agents.foldl
    (fun acc a =>
      match classifyRole a.role with
      | .docs => { acc with docs := acc.docs ++ [a] }
      | .tests => { acc with tests := acc.tests ++ [a] }
      | .backend => { acc with backend := acc.backend ++ [a] }
      | .frontend => { acc with frontend := acc.frontend ++ [a] }
      | .other => { acc with other := acc.other ++ [a] })
    {}

/-- The per-bucket contribution to `merge_sequence`: PR numbers appended
under the Python-truthy test `if pr_num:` (so `None` and `0` are both
skipped). -/
def bucketSeq (l : List AgentEntry) : List Int :=
  l.foldl (fun s a => if intTruthy a.pr then s ++ [a.pr.getD 0] else s) []

/-- The data computed by the merge-order section of `handle_integrate`:
the emitted (non-empty) buckets in emission order, and `merge_sequence`. -/
structure MergePlan where
  emitted : List (Bucket × List AgentEntry)
  sequence : List Int
deriving DecidableEq, Repr

/-- The merge-order plan of `handle_integrate`: buckets are emitted under
`if <bucket list>:` guards in the fixed order docs, tests, backend,
frontend, other, and `merge_sequence` is accumulated inside those same
guards. -/
def planMergeOrder (agents : List AgentEntry) : MergePlan :=
  let acc := bucketLoop agents
  let emitted :=
    (if acc.docs ≠ [] then [(Bucket.docs, acc.docs)] else []) ++
    (if acc.tests ≠ [] then [(Bucket.tests, acc.tests)] else []) ++
    (if acc.backend ≠ [] then [(Bucket.backend, acc.backend)] else []) ++
    (if acc.frontend ≠ [] then [(Bucket.frontend, acc.frontend)] else []) ++
    (if acc.other ≠ [] then [(Bucket.other, acc.other)] else [])
  let sequence :=
    (if acc.docs ≠ [] then bucketSeq acc.docs else []) ++
    (if acc.tests ≠ [] then bucketSeq acc.tests else []) ++
    (if acc.backend ≠ [] then bucketSeq acc.backend else []) ++
    (if acc.frontend ≠ [] then bucketSeq acc.frontend else []) ++
    (if acc.other ≠ [] then bucketSeq acc.other else [])
  ⟨emitted, sequence⟩

/-! ## state.py: the persisted workflow state -/

/-- A JSON value, the model of what `json.dumps`/`json.loads` and the
pydantic `model_dump` exchange through `WORKFLOW_STATE.json`. -/
inductive JValue where
  | jnull : JValue
  | jbool : Bool → JValue
  | jint : Int → JValue
  | jstr : String → JValue
  | jarr : List JValue → JValue
  | jobj : List (String × JValue) → JValue

/-- Model of the pydantic `WaveInfo`, with its field defaults. -/
structure WaveInfo where
  number : Int := 1
  name : String := ""
  agents : List Int := []
  started_at : Option String := none
  completed_at : Option String := none
  status : String := "not_started"
deriving DecidableEq, Repr

/-- Model of the pydantic `AgentInfo`, with its field defaults. -/
structure AgentInfo where
  id : Int
  role : String
  slug : String
  branch : String
  status : String := "not_started"
  started_at : Option String := none
  completed_at : Option String := none
  pr_number : Option Int := none
  wave : Int := 1
deriving DecidableEq, Repr

/-- Model of the pydantic `WorkflowState`, with its field defaults.
History entries are `dict[str, Any]`, modelled as JSON objects. -/
structure WorkflowState where
  project : String
  project_path : String
  phase : String := "idle"
  iteration : Int := 0
  status : String := "not_started"
  tech_stack : Option String := none
  review_complete : Bool := false
  mode : String := "parallel"
  current_task_index : Int := 0
  wave : Option WaveInfo := none
  agents : List AgentInfo := []
  history : List (List (String × JValue)) := []
  created_at : String := ""
  last_updated : String := ""

/-- Model of `WorkflowState.empty(project_path)`: the caller passes
`path.name` and `str(path)`; `now` is `datetime.now(UTC).isoformat()`. -/
def WorkflowState.empty (projectName projectPath now : String) : WorkflowState :=
  { project := projectName
    project_path := projectPath
    created_at := now
    last_updated := now }

/-! ## state.py: JSON serialisation (save_state / load_state) -/

/-- Encoding of an optional string, as `model_dump` emits it. -/
def encodeOptStr : Option String → JValue
  | none => .jnull
  | some s => .jstr s

/-- Encoding of an optional integer, as `model_dump` emits it. -/
def encodeOptInt : Option Int → JValue
  | none => .jnull
  | some n => .jint n

/-- The `model_dump` of a `WaveInfo`. -/
def encodeWave (w : WaveInfo) : List (String × JValue) :=
  [("number", .jint w.number),
   ("name", .jstr w.name),
   ("agents", .jarr (w.agents.map JValue.jint)),
   ("started_at", encodeOptStr w.started_at),
   ("completed_at", encodeOptStr w.completed_at),
   ("status", .jstr w.status)]

/-- The `model_dump` of an `AgentInfo`. -/
def encodeAgent (a : AgentInfo) : List (String × JValue) :=
  [("id", .jint a.id),
   ("role", .jstr a.role),
   ("slug", .jstr a.slug),
   ("branch", .jstr a.branch),
   ("status", .jstr a.status),
   ("started_at", encodeOptStr a.started_at),
   ("completed_at", encodeOptStr a.completed_at),
   ("pr_number", encodeOptInt a.pr_number),
   ("wave", .jint a.wave)]

/-- The `model_dump` of a `WorkflowState`, the JSON written by
`save_state`. -/
def encodeState (s : WorkflowState) : JValue :=
  .jobj
    [("project", .jstr s.project),
     ("project_path", .jstr s.project_path),
     ("phase", .jstr s.phase),
     ("iteration", .jint s.iteration),
     ("status", .jstr s.status),
     ("tech_stack", encodeOptStr s.tech_stack),
     ("review_complete", .jbool s.review_complete),
     ("mode", .jstr s.mode),
     ("current_task_index", .jint s.current_task_index),
     ("wave", match s.wave with | none => .jnull | some w => .jobj (encodeWave w)),
     ("agents", .jarr (s.agents.map (fun a => .jobj (encodeAgent a)))),
     ("history", .jarr (s.history.map JValue.jobj)),
     ("created_at", .jstr s.created_at),
     ("last_updated", .jstr s.last_updated)]

/-- First-match key lookup in a JSON object, the model of Python dict
access during pydantic validation. -/
def jLookup (fields : List (String × JValue)) (key : String) : Option JValue :=
  match fields with
  | [] => none
  | (k, v) :: rest => if k = key then some v else jLookup rest key

/-- Required string field: absent or non-string means validation fails. -/
def getStrReq (fields : List (String × JValue)) (key : String) : Option String :=
  match jLookup fields key with
  | some (.jstr s) => some s
  | _ => none

/-- Optional string field with a pydantic default. -/
def getStrD (fields : List (String × JValue)) (key : String) (dflt : String) : Option String :=
  match jLookup fields key with
  | none => some dflt
  | some (.jstr s) => some s
  | some _ => none

/-- Optional integer field with a pydantic default. -/
def getIntD (fields : List (String × JValue)) (key : String) (dflt : Int) : Option Int :=
  match jLookup fields key with
  | none => some dflt
  | some (.jint n) => some n
  | some _ => none

/-- Optional Boolean field with a pydantic default. -/
def getBoolD (fields : List (String × JValue)) (key : String) (dflt : Bool) : Option Bool :=
  match jLookup fields key with
  | none => some dflt
  | some (.jbool b) => some b
  | some _ => none

/-- `Optional[str]` field defaulting to `None`. -/
def getOptStr (fields : List (String × JValue)) (key : String) : Option (Option String) :=
  match jLookup fields key with
  | none => some none
  | some .jnull => some none
  | some (.jstr s) => some (some s)
  | some _ => none

/-- `Optional[int]` field defaulting to `None`. -/
def getOptInt (fields : List (String × JValue)) (key : String) : Option (Option Int) :=
  match jLookup fields key with
  | none => some none
  | some .jnull => some none
  | some (.jint n) => some (some n)
  | some _ => none

/-- Decoding of a `list[int]` field. -/
def decodeIntList : List JValue → Option (List Int)
  | [] => some []
  | .jint n :: rest => (decodeIntList rest).map (n :: ·)
  | _ :: _ => none

/-- Validation of a `WaveInfo` from a JSON object. -/
def decodeWave (fields : List (String × JValue)) : Option WaveInfo := do
  let number ← getIntD fields "number" 1
  let name ← getStrD fields "name" ""
  let agents ← match jLookup fields "agents" with
    | none => some []
    | some (.jarr xs) => decodeIntList xs
    | some _ => none
  let started_at ← getOptStr fields "started_at"
  let completed_at ← getOptStr fields "completed_at"
  let status ← getStrD fields "status" "not_started"
  pure { number := number, name := name, agents := agents, started_at := started_at,
         completed_at := completed_at, status := status }

/-- Validation of an `AgentInfo` from a JSON value. -/
def decodeAgent : JValue → Option AgentInfo
  | .jobj fields => do
    let id ← match jLookup fields "id" with
      | some (.jint n) => some n
      | _ => none
    let role ← getStrReq fields "role"
    let slug ← getStrReq fields "slug"
    let branch ← getStrReq fields "branch"
    let status ← getStrD fields "status" "not_started"
    let started_at ← getOptStr fields "started_at"
    let completed_at ← getOptStr fields "completed_at"
    let pr_number ← getOptInt fields "pr_number"
    let wave ← getIntD fields "wave" 1
    pure { id := id, role := role, slug := slug, branch := branch, status := status,
           started_at := started_at, completed_at := completed_at,
           pr_number := pr_number, wave := wave }
  | _ => none

/-- Validation of the `agents` list. -/
def decodeAgents : List JValue → Option (List AgentInfo)
  | [] => some []
  | j :: rest => do
    let a ← decodeAgent j
    let l ← decodeAgents rest
    pure (a :: l)

/-- Validation of the `history` list (each entry must be an object). -/
def decodeHistory : List JValue → Option (List (List (String × JValue)))
  | [] => some []
  | .jobj f :: rest => (decodeHistory rest).map (f :: ·)
  | _ :: _ => none

/-- Validation of a `WorkflowState` from a JSON value: the model of
`WorkflowState(**data)` in `load_state` (`none` models a
ValidationError, which `load_state` turns into a fresh empty state). -/
def decodeState : JValue → Option WorkflowState
  | .jobj fields => do
    let project ← getStrReq fields "project"
    let project_path ← getStrReq fields "project_path"
    let phase ← getStrD fields "phase" "idle"
    let iteration ← getIntD fields "iteration" 0
    let status ← getStrD fields "status" "not_started"
    let tech_stack ← getOptStr fields "tech_stack"
    let review_complete ← getBoolD fields "review_complete" false
    let mode ← getStrD fields "mode" "parallel"
    let current_task_index ← getIntD fields "current_task_index" 0
    let wave ← match jLookup fields "wave" with
      | none => some none
      | some .jnull => some none
      | some (.jobj wf) => (decodeWave wf).map some
      | some _ => none
    let agents ← match jLookup fields "agents" with
      | none => some []
      | some (.jarr xs) => decodeAgents xs
      | some _ => none
    let history ← match jLookup fields "history" with
      | none => some []
      | some (.jarr xs) => decodeHistory xs
      | some _ => none
    let created_at ← getStrD fields "created_at" ""
    let last_updated ← getStrD fields "last_updated" ""
    pure { project := project, project_path := project_path, phase := phase,
           iteration := iteration, status := status, tech_stack := tech_stack,
           review_complete := review_complete, mode := mode,
           current_task_index := current_task_index, wave := wave, agents := agents,
           history := history, created_at := created_at, last_updated := last_updated }
  | _ => none

/-- Model of `save_state`: refresh `last_updated` to the current time,
then write the JSON dump of the state. Returns the file contents. -/
def save_state_model (s : WorkflowState) (now : String) : JValue :=
  encodeState { s with last_updated := now }

/-- Model of `load_state`: a missing file or a failed validation yields a
fresh empty state for the project; otherwise the validated state. -/
def load_state_model (projectName projectPath now : String) :
    Option JValue → WorkflowState
  | none => WorkflowState.empty projectName projectPath now
  | some j =>
    match decodeState j with
    | some s => s
    | none => WorkflowState.empty projectName projectPath now

/-! ## server.py: handlers as persisted-state transformers -/

/-- The file-system and clock context of one handler invocation:
whether `check_maw_setup` passes, whether `AGENT_PROMPTS/` exists, the
raw directory listing of `AGENT_PROMPTS/`, whether
`WORKFLOW_STATE.json` exists, the project name and path, and the
timestamp `save_state` would write. -/
structure Env where
  setupOk : Bool
  promptsDirExists : Bool
  promptFiles : List String
  stateFileExists : Bool
  projectName : String
  projectPath : String
  now : String

/-- The `[0-9]_*.md` glob of `handle_launch`: first character one digit,
then an underscore, then anything ending in `.md`. -/
def matchesTaskGlob (name : String) : Bool :=
  match name.toList with
  | c :: '_' :: rest => c.isDigit && isSuffixOfB ".md".toList rest
  | _ => false

/-- The Python string comparison as a Boolean relation, for sorting file
names. -/
def discoveredTasks (env : Env) : List String :=
  insertionSortB strLe (env.promptFiles.filter matchesTaskGlob)

/-- Model of `int(pf.name.split("_")[0])` for a task file name. For
names matched by the glob the parse always succeeds (single leading
digit); the `getD 0` branch is dead there. -/
def taskAgentNum (name : String) : Int :=
  (((splitOnChar '_' name.toList).get? 0).bind pyIntOfChars?).getD 0

/-- Python list indexing `l[i]`: non-negative indexes from the front,
negative indexes from the back, out of range is an `IndexError`. -/
def pyIdx (l : List α) (i : Int) : Option α :=
  if 0 ≤ i then l.get? i.toNat
  else if 0 ≤ (l.length : Int) + i then l.get? ((l.length : Int) + i).toNat
  else none

/-- The keep-test of the parallel branch of `handle_launch`:
`if agent_id and agent_num != agent_id: continue` (an `agent_id` of
`None` or `0` is falsy and disables the filter). -/
def parallelKeeps (agentId : Option Int) (name : String) : Bool :=
  match agentId with
  | none => true
  | some aid => if aid = 0 then true else decide (taskAgentNum name = aid)

/-- The branch of `handle_launch` a call returns through, carrying the
data that the rendered text is built from. `task` carries the value of
`current_task_index` at selection time, the total, and the selected file
name; `parallel` carries the kept file names. -/
inductive LaunchOutcome where
  | setupError
  | reviewIncomplete
  | noPromptsDir
  | noPromptFiles
  | indexError
  | allComplete (total : Nat)
  | task (index : Int) (total : Nat) (name : String)
  | parallel (names : List String)
deriving DecidableEq, Repr

/-- The result of one `handle_launch` call: the outcome, and the state
passed to `save_state` (`none` when the handler returned without
saving, leaving `WORKFLOW_STATE.json` untouched). -/
structure LaunchResult where
  outcome : LaunchOutcome
  saved : Option WorkflowState

/-- Model of `handle_launch` on the loaded state `s`: the guard order,
the sequential branch (mode switch, terminal check before any save,
task selection at `current_task_index`, increment, phase and status
update, save) and the parallel branch follow the source. -/
def handle_launch (env : Env) (nextOnly : Bool) (agentId : Option Int)
    (s : WorkflowState) : LaunchResult :=
  if !env.setupOk then ⟨.setupError, none⟩
  else if !s.review_complete then ⟨.reviewIncomplete, none⟩
  else if !env.promptsDirExists then ⟨.noPromptsDir, none⟩
  else
    let pfs := discoveredTasks env
    if pfs = [] then ⟨.noPromptFiles, none⟩
    else if nextOnly then
      let s1 := { s with mode := "sequential" }
      let total := pfs.length
      if s1.current_task_index ≥ (total : Int) then ⟨.allComplete total, none⟩
      else
        match pyIdx pfs s1.current_task_index with
        | none => ⟨.indexError, none⟩
        | some name =>
          let s2 := { s1 with current_task_index := s1.current_task_index + 1,
                              phase := "launch", status := "launching" }
          ⟨.task s1.current_task_index total name, some s2⟩
    else
      let s1 := { s with mode := "parallel", phase := "launch", status := "launching" }
      ⟨.parallel (pfs.filter (parallelKeeps agentId)), some s1⟩

/-- One sequential-mode call as seen through the persisted state: the
outcome, and the new persisted state (`save_state` refreshes
`last_updated` to `t`; when nothing is saved the file is unchanged). -/
def seqStep (env : Env) (t : String) (s : WorkflowState) :
    LaunchOutcome × WorkflowState :=
  match handle_launch env true none s with
  | ⟨out, some s2⟩ => (out, { s2 with last_updated := t })
  | ⟨out, none⟩ => (out, s)

/-- The persisted state after `k` sequential-mode calls, starting from
`s0`, with `ts` the wall clock at each save. -/
def runSeq (env : Env) (ts : Nat → String) (s0 : WorkflowState) : Nat → WorkflowState
  | 0 => s0
  | k + 1 => (seqStep env (ts k) (runSeq env ts s0 k)).2

/-- The outcome of the call numbered `k` (zero-based) in the sequential
run. -/
def seqOutcome (env : Env) (ts : Nat → String) (s0 : WorkflowState) (k : Nat) :
    LaunchOutcome :=
  (seqStep env (ts k) (runSeq env ts s0 k)).1

/-- The state mutation of `handle_review` (after its setup check): set
phase and status, and open a new wave when a non-empty wave name is
supplied (`if wave_name:`). -/
def handle_review_state (s : WorkflowState) (waveName : String) : WorkflowState :=
  let s1 := { s with phase := "review", status := "reviewing" }
  if waveName ≠ "" then
    { s1 with wave := some { number := s.iteration + 1, name := waveName } }
  else s1

/-- The workflow operations that touch (or deliberately do not touch)
the persisted state. -/
inductive Op where
  | review (waveName : String)
  | launch (nextOnly : Bool) (agentId : Option Int)
  | checkin
  | integrate
  | decide
  | clean
deriving DecidableEq, Repr

/-- The persisted-state effect of one handler invocation, from the
source of each handler: `handle_checkin`, `handle_decide` and
`handle_status` never call `save_state`; `handle_review` and
`handle_integrate` set their phase and status unconditionally (after the
setup check); `handle_clean` rewrites the state file with a fresh empty
state; `handle_launch` saves only on the paths modelled above. -/
def applyOp (env : Env) (op : Op) (s : WorkflowState) : WorkflowState :=
  match op with
  | .review w =>
    if env.setupOk then { handle_review_state s w with last_updated := env.now } else s
  | .launch nextOnly agentId =>
    match (handle_launch env nextOnly agentId s).saved with
    | some s2 => { s2 with last_updated := env.now }
    | none => s
  | .checkin => s
  | .integrate =>
    if env.setupOk then
      { s with phase := "integrate", status := "integrating", last_updated := env.now }
    else s
  | .decide => s
  | .clean =>
    if env.setupOk && env.stateFileExists then
      { WorkflowState.empty env.projectName env.projectPath env.now with
          iteration := 0, last_updated := env.now }
    else s

/-- Numeric rank of the workflow phases, for stating monotonicity. -/
def phaseRank : String → Nat
  | "idle" => 0
  | "review" => 1
  | "launch" => 2
  | "integrate" => 3
  | "decide" => 4
  | _ => 5

/-! ## Claim-side characterisations -/

/-- The keep-and-augment decision of the `get_agent_prs` loop for one
PR, as an optional result. -/
def augmentPR? (pr : PRRec) : Option PRRec :=
  match agentNumOf pr.headRefName with
  | some n => some { pr with agent_num := some n }
  | none => none

/-- Sorting the extracted agent PRs directly by the parsed agent number
(the refinement target of the sentinel-keyed sort; every extracted PR
has `agent_num` set, so the `getD` default is irrelevant). -/
def get_agent_prs_direct (prs : List PRRec) : List PRRec :=
  insertionSortB (fun a b => decide (a.agent_num.getD 0 ≤ b.agent_num.getD 0))
    (extractLoop prs)

/-- The PR number an agent entry contributes to `merge_sequence`: its
`pr_number` when Python-truthy (present and non-zero). -/
def prTruthyNum (a : AgentEntry) : Option Int :=
  match a.pr with
  | some n => if n ≠ 0 then some n else none
  | none => none

theorem lookupL_updateMap (m : List (String × List Int)) (path : String) (n : Int)
    (p : String) :
    lookupL (updateMap m path n) p =
      if path = p then lookupL m p ++ [n] else lookupL m p := by
  induction m with
  | nil =>
    by_cases h : path = p <;> simp [lookupL, updateMap, h]
  | cons e rest ih =>
    obtain ⟨q, ns⟩ := e
    by_cases hq : q = path
    · subst hq
      by_cases h : q = p <;> simp [updateMap, lookupL, h]
    · by_cases h : q = p
      · subst h
        have : ¬path = q := fun hc => hq hc.symm
        simp [updateMap, lookupL, hq, this]
      · simp [updateMap, lookupL, hq, h, ih]

theorem lookupL_fold_files (files : List String) (n : Int) (p : String) :
    ∀ m, lookupL (files.foldl (fun m2 path => updateMap m2 path n) m) p =
      lookupL m p ++ List.replicate (files.count p) n := by
  induction files with
  | nil => intro m; simp
  | cons f fs ih =>
    intro m
    simp only [List.foldl_cons, ih, lookupL_updateMap]
    by_cases h : f = p
    · subst h
      simp [List.count_cons, List.append_assoc, List.replicate_succ]
    · have : ¬(f == p) := by simpa using h
      simp [List.count_cons, h, this]

theorem lookupL_buildFileMap (prs : List PRRec) (p : String) :
    lookupL (buildFileMap prs) p =
      (prs.map (fun pr => List.replicate (pr.files.count p) pr.number)).flatten := by
  suffices h : ∀ m, lookupL (prs.foldl
      (fun m pr => pr.files.foldl (fun m2 path => updateMap m2 path pr.number) m) m) p =
      lookupL m p ++ (prs.map (fun pr => List.replicate (pr.files.count p) pr.number)).flatten by
    simpa [buildFileMap, lookupL] using h []
  induction prs with
  | nil => intro m; simp
  | cons pr rest ih =>
    intro m
    simp [List.foldl_cons, ih, lookupL_fold_files, List.append_assoc]

theorem length_lookupL_buildFileMap (prs : List PRRec) (p : String) :
    (lookupL (buildFileMap prs) p).length = totalCount prs p := by
  simp [lookupL_buildFileMap, totalCount, Function.comp_def]

theorem keysL_updateMap (m : List (String × List Int)) (path : String) (n : Int) :
    keysL (updateMap m path n) =
      if path ∈ keysL m then keysL m else keysL m ++ [path] := by
  induction m with
  | nil => simp [keysL, updateMap]
  | cons e rest ih =>
    obtain ⟨q, ns⟩ := e
    by_cases hq : q = path
    · subst hq
      simp [updateMap, keysL]
    · have hne : path ≠ q := fun hc => hq hc.symm
      have hupd : updateMap ((q, ns) :: rest) path n = (q, ns) :: updateMap rest path n := by
        simp [updateMap, hq]
      have hcons : keysL ((q, ns) :: updateMap rest path n) =
          q :: keysL (updateMap rest path n) := rfl
      have hcons2 : keysL ((q, ns) :: rest) = q :: keysL rest := rfl
      rw [hupd, hcons, ih, hcons2]
      by_cases hmem : path ∈ keysL rest
      · simp [List.mem_cons, hmem, hne]
      · simp [List.mem_cons, hmem, hne]

theorem nodup_keysL_updateMap (m : List (String × List Int)) (path : String) (n : Int)
    (h : (keysL m).Nodup) : (keysL (updateMap m path n)).Nodup := by
  rw [keysL_updateMap]
  by_cases hmem : path ∈ keysL m
  · simpa [hmem] using h
  · simp only [hmem, if_false]
    simpa [List.nodup_append] using ⟨h, hmem⟩

theorem nodup_keysL_buildFileMap (prs : List PRRec) :
    (keysL (buildFileMap prs)).Nodup := by
  suffices h : ∀ m, (keysL m).Nodup →
      (keysL (prs.foldl
        (fun m pr => pr.files.foldl (fun m2 path => updateMap m2 path pr.number) m) m)).Nodup by
    exact h [] (by simp [keysL])
  induction prs with
  | nil => intro m hm; simpa using hm
  | cons pr rest ih =>
    intro m hm
    simp only [List.foldl_cons]
    apply ih
    clear ih
    induction pr.files generalizing m with
    | nil => simpa using hm
    | cons f fs ihf =>
      simp only [List.foldl_cons]
      exact ihf _ (nodup_keysL_updateMap _ _ _ hm)

theorem lookupL_of_mem (m : List (String × List Int)) (e : String × List Int)
    (hnd : (keysL m).Nodup) (he : e ∈ m) : lookupL m e.1 = e.2 := by
  induction m with
  | nil => cases he
  | cons hd rest ih =>
    obtain ⟨q, ns⟩ := hd
    rcases List.mem_cons.mp he with h | h
    · subst h; simp [lookupL]
    · have hq : q ≠ e.1 := by
        intro hc
        have : e.1 ∈ keysL rest := List.mem_map.mpr ⟨e, h, rfl⟩
        rw [hc] at hnd
        exact (List.nodup_cons.mp hnd).1 this
      simp only [lookupL, hq, if_false]
      exact ih (List.nodup_cons.mp hnd).2 h

theorem lookupL_mem_or_nil (m : List (String × List Int)) (p : String) :
    lookupL m p = [] ∨ (p, lookupL m p) ∈ m := by
  induction m with
  | nil => left; rfl
  | cons hd rest ih =>
    obtain ⟨q, ns⟩ := hd
    by_cases h : q = p
    · subst h; right; simp [lookupL]
    · rcases ih with h2 | h2
      · left; simpa [lookupL, h] using h2
      · right
        simp only [lookupL, h, if_false]
        exact List.mem_cons_of_mem _ h2

theorem detect_conflicts_eq_nil_iff_lookup (prs : List PRRec) :
    detect_conflicts prs = [] ↔ ∀ p : String, (lookupL (buildFileMap prs) p).length ≤ 1 := by
  unfold detect_conflicts
  rw [List.map_eq_nil_iff, List.filter_eq_nil_iff]
  constructor
  · intro h p
    rcases lookupL_mem_or_nil (buildFileMap prs) p with h2 | h2
    · simp [h2]
    · have := h _ h2
      simpa using Nat.le_of_not_lt (by simpa using this)
  · intro h e he
    have := lookupL_of_mem _ e (nodup_keysL_buildFileMap prs) he
    have hlen := h e.1
    rw [this] at hlen
    simp only [decide_eq_true_eq]
    omega

theorem totalCount_eq_filter_length (prs : List PRRec) (p : String)
    (h : ∀ pr ∈ prs, pr.files.Nodup) :
    totalCount prs p = (prs.filter (fun pr => pr.files.contains p)).length := by
  induction prs with
  | nil => simp [totalCount]
  | cons pr rest ih =>
    have hpr : pr.files.Nodup := h pr (List.mem_cons_self _ _)
    have hrest := ih (fun q hq => h q (List.mem_cons_of_mem _ hq))
    have hcount : pr.files.count p = if pr.files.contains p then 1 else 0 := by
      by_cases hm : p ∈ pr.files
      · rw [List.count_eq_one_of_mem hpr hm]; simp [hm]
      · rw [List.count_eq_zero_of_not_mem hm]; simp [hm]
    have hstep : totalCount (pr :: rest) p = pr.files.count p + totalCount rest p := by
      simp [totalCount]
    rw [hstep, hcount, hrest, List.filter_cons]
    by_cases hm : p ∈ pr.files
    · simp [hm, Nat.add_comm]
    · simp [hm]

/-- C1 (amended core): the conflict list is empty iff every file path
occurs at most once across all file lists, counting multiplicity; for
PRs whose file lists are duplicate-free this is exactly: every file path
is touched by at most one PR. -/
theorem detect_conflicts_empty_iff (prs : List PRRec)
    (h : ∀ pr ∈ prs, pr.files.Nodup) :
    detect_conflicts prs = [] ↔ atMostOnePRPerFile prs := by
  rw [detect_conflicts_eq_nil_iff_lookup]
  unfold atMostOnePRPerFile
  constructor
  · intro hl p
    have := hl p
    rw [length_lookupL_buildFileMap, totalCount_eq_filter_length prs p h] at this
    exact this
  · intro hf p
    rw [length_lookupL_buildFileMap, totalCount_eq_filter_length prs p h]
    exact hf p

/-! ## Stable insertion sort: permutation, sortedness, congruence -/

theorem mem_orderedInsertB (le : α → α → Bool) (a x : α) (l : List α) :
    x ∈ orderedInsertB le a l ↔ x = a ∨ x ∈ l := by
  induction l with
  | nil => simp [orderedInsertB]
  | cons b t ih =>
    by_cases h : le a b
    · simp [orderedInsertB, h, List.mem_cons]
    · simp [orderedInsertB, h, List.mem_cons, ih]
      tauto

theorem orderedInsertB_perm (le : α → α → Bool) (a : α) (l : List α) :
    (orderedInsertB le a l).Perm (a :: l) := by
  induction l with
  | nil => simp [orderedInsertB]
  | cons b t ih =>
    by_cases h : le a b
    · simp [orderedInsertB, h]
    · rw [orderedInsertB, if_neg h]
      exact (ih.cons b).trans (List.Perm.swap a b t)

theorem insertionSortB_perm (le : α → α → Bool) (l : List α) :
    (insertionSortB le l).Perm l := by
  induction l with
  | nil => simp [insertionSortB]
  | cons b t ih =>
    rw [insertionSortB]
    exact (orderedInsertB_perm le b _).trans (ih.cons b)

theorem pairwise_orderedInsertB (le : α → α → Bool)
    (htot : ∀ a b, (le a b || le b a) = true)
    (htrans : ∀ a b c, le a b = true → le b c = true → le a c = true)
    (a : α) (l : List α) (hl : l.Pairwise (fun x y => le x y = true)) :
    (orderedInsertB le a l).Pairwise (fun x y => le x y = true) := by
  induction l with
  | nil => simp [orderedInsertB]
  | cons b t ih =>
    rcases List.pairwise_cons.mp hl with ⟨hb, ht⟩
    by_cases h : le a b = true
    · rw [orderedInsertB, if_pos h]
      refine List.pairwise_cons.mpr ⟨?_, hl⟩
      intro x hx
      rcases List.mem_cons.mp hx with rfl | hx2
      · exact h
      · exact htrans a b x h (hb x hx2)
    · rw [orderedInsertB, if_neg h]
      refine List.pairwise_cons.mpr ⟨?_, ih ht⟩
      intro x hx
      rcases (mem_orderedInsertB le a x t).mp hx with heq | hx2
      · subst heq
        have := htot x b
        simpa [h] using this
      · exact hb x hx2

theorem pairwise_insertionSortB (le : α → α → Bool)
    (htot : ∀ a b, (le a b || le b a) = true)
    (htrans : ∀ a b c, le a b = true → le b c = true → le a c = true)
    (l : List α) :
    (insertionSortB le l).Pairwise (fun x y => le x y = true) := by
  induction l with
  | nil => simp [insertionSortB]
  | cons b t ih => exact pairwise_orderedInsertB le htot htrans b _ ih

theorem orderedInsertB_congr (le1 le2 : α → α → Bool) (a : α) (l : List α)
    (ha : ∀ x ∈ l, le1 a x = le2 a x) :
    orderedInsertB le1 a l = orderedInsertB le2 a l := by
  induction l with
  | nil => rfl
  | cons b t ih =>
    have hb := ha b (List.mem_cons_self _ _)
    rw [orderedInsertB, orderedInsertB, hb]
    by_cases h : le2 a b = true
    · rw [if_pos h, if_pos h]
    · rw [if_neg h, if_neg h, ih (fun x hx => ha x (List.mem_cons_of_mem _ hx))]

theorem insertionSortB_congr (le1 le2 : α → α → Bool) (l : List α)
    (h : ∀ x ∈ l, ∀ y ∈ l, le1 x y = le2 x y) :
    insertionSortB le1 l = insertionSortB le2 l := by
  induction l with
  | nil => rfl
  | cons b t ih =>
    have ht : insertionSortB le1 t = insertionSortB le2 t :=
      ih (fun x hx y hy =>
        h x (List.mem_cons_of_mem _ hx) y (List.mem_cons_of_mem _ hy))
    rw [insertionSortB, insertionSortB, ht]
    apply orderedInsertB_congr
    intro x hx
    have hxmem : x ∈ t := ((insertionSortB_perm le2 t).mem_iff).mp hx
    exact h b (List.mem_cons_self _ _) x (List.mem_cons_of_mem _ hxmem)

/-! ## Agent-PR extraction: loop characterisation -/

theorem extractLoop_eq_filterMap (prs : List PRRec) :
    extractLoop prs = prs.filterMap augmentPR? := by
  suffices h : ∀ acc, prs.foldl
      (fun acc pr =>
        match agentNumOf pr.headRefName with
        | some n => acc ++ [{ pr with agent_num := some n }]
        | none => acc) acc = acc ++ prs.filterMap augmentPR? by
    simpa [extractLoop] using h []
  induction prs with
  | nil => simp
  | cons pr rest ih =>
    intro acc
    rw [List.foldl_cons, List.filterMap_cons]
    cases h : agentNumOf pr.headRefName with
    | none => simp only [augmentPR?, h]; rw [ih]
    | some n => simp only [augmentPR?, h]; rw [ih, List.append_assoc]; rfl

theorem mem_extractLoop_agent_num (prs : List PRRec) (p : PRRec)
    (hp : p ∈ extractLoop prs) :
    ∃ n, p.agent_num = some n ∧ agentNumOf p.headRefName = some n := by
  rw [extractLoop_eq_filterMap] at hp
  rcases List.mem_filterMap.mp hp with ⟨pr, _, haug⟩
  unfold augmentPR? at haug
  cases h : agentNumOf pr.headRefName with
  | none => rw [h] at haug; cases haug
  | some n =>
    rw [h] at haug
    cases haug
    exact ⟨n, rfl, h⟩

theorem sentinelLe_total (a b : PRRec) : (sentinelLe a b || sentinelLe b a) = true := by
  simp [sentinelLe]
  omega

theorem sentinelLe_trans (a b c : PRRec) (h1 : sentinelLe a b = true)
    (h2 : sentinelLe b c = true) : sentinelLe a c = true := by
  simp [sentinelLe] at h1 h2 ⊢
  omega

/-- C4 (amended): the extraction keeps exactly the PRs whose branch
starts with `agent/` and whose segment between the first and second `/`
has a first `-`-separated token parsing as an integer (that is, exactly
those with `agentNumOf` defined); each kept PR carries that parsed
number as `agent_num`, no excluded PR is assigned a fallback number,
and the result is ordered ascending by the `agent_num` key. -/
theorem get_agent_prs_claim (prs : List PRRec) :
    (get_agent_prs_pure prs).Perm (prs.filterMap augmentPR?) ∧
    (∀ p ∈ get_agent_prs_pure prs,
      ∃ n, p.agent_num = some n ∧ agentNumOf p.headRefName = some n) ∧
    (get_agent_prs_pure prs).Pairwise (fun a b => sentinelKey a ≤ sentinelKey b) := by
  refine ⟨?_, ?_, ?_⟩
  · unfold get_agent_prs_pure
    rw [extractLoop_eq_filterMap]
    exact insertionSortB_perm sentinelLe _
  · intro p hp
    have hmem : p ∈ extractLoop prs :=
      ((insertionSortB_perm sentinelLe _).mem_iff).mp hp
    exact mem_extractLoop_agent_num prs p hmem
  · have h := pairwise_insertionSortB sentinelLe sentinelLe_total sentinelLe_trans
      (extractLoop prs)
    refine h.imp ?_
    intro a b hab
    simpa [sentinelLe] using hab

/-- C4 witness: on a concrete one-PR list, the kept PR carries the
parsed agent number 1. -/
theorem get_agent_prs_claim_witness :
    ∃ n, ({ number := 6, headRefName := "agent/1-a", files := [], agent_num := some 1 } : PRRec).agent_num = some n ∧ agentNumOf ({ number := 6, headRefName := "agent/1-a", files := [], agent_num := some 1 } : PRRec).headRefName = some n :=
  (get_agent_prs_claim [{ number := 6, headRefName := "agent/1-a", files := [] }]).2.1
    _ (by decide)

/-- C4 counterexample: the PR with branch `agent/1/x` is kept by the
code (the extraction parses the segment between the two slashes), while
the first `-`-separated token of the remainder after the `agent/`
prefix, namely `1/x`, does not parse as an integer, so the claim as
stated would exclude it. -/
theorem get_agent_prs_counterexample :
    (get_agent_prs_pure [{ number := 7, headRefName := "agent/1/x" }]).length = 1 ∧
    ((splitOnChar '-' ("agent/1/x".toList.drop 6)).get? 0).bind pyIntOfChars? = none := by
  constructor <;> rfl

/-- C10: every PR appended by the extraction loop has an agent number,
so the `999` sentinel of the sort key is unreachable and the
sentinel-keyed sort coincides with sorting directly by the parsed agent
number, on every input. -/
theorem sentinel_sort_eq_direct (prs : List PRRec) :
    (∀ p ∈ extractLoop prs, p.agent_num ≠ none) ∧
    get_agent_prs_pure prs = get_agent_prs_direct prs := by
  constructor
  · intro p hp
    rcases mem_extractLoop_agent_num prs p hp with ⟨n, hn, _⟩
    simp [hn]
  · unfold get_agent_prs_pure get_agent_prs_direct
    apply insertionSortB_congr
    intro x hx y hy
    rcases mem_extractLoop_agent_num prs x hx with ⟨nx, hnx, _⟩
    rcases mem_extractLoop_agent_num prs y hy with ⟨ny, hny, _⟩
    simp [sentinelLe, sentinelKey, hnx, hny]

/-- C10 witness: on a concrete one-PR list, the extracted PR has a
present agent number. -/
theorem sentinel_sort_eq_direct_witness :
    ({ number := 6, headRefName := "agent/2-b", files := [],
       agent_num := some 2 } : PRRec).agent_num ≠ none :=
  (sentinel_sort_eq_direct [{ number := 6, headRefName := "agent/2-b", files := [] }]).1
    _ (by decide)

/-! ## Merge sequencer: loop characterisation -/

theorem bucketLoop_eq_filters (agents : List AgentEntry) :
    bucketLoop agents =
      { docs := agents.filter (fun a => decide (classifyRole a.role = Bucket.docs))
        tests := agents.filter (fun a => decide (classifyRole a.role = Bucket.tests))
        backend := agents.filter (fun a => decide (classifyRole a.role = Bucket.backend))
        frontend := agents.filter (fun a => decide (classifyRole a.role = Bucket.frontend))
        other := agents.filter (fun a => decide (classifyRole a.role = Bucket.other)) } := by
  suffices h : ∀ acc : BucketAcc, agents.foldl
      (fun acc a =>
        match classifyRole a.role with
        | .docs => { acc with docs := acc.docs ++ [a] }
        | .tests => { acc with tests := acc.tests ++ [a] }
        | .backend => { acc with backend := acc.backend ++ [a] }
        | .frontend => { acc with frontend := acc.frontend ++ [a] }
        | .other => { acc with other := acc.other ++ [a] }) acc =
      { docs := acc.docs ++ agents.filter (fun a => decide (classifyRole a.role = Bucket.docs))
        tests := acc.tests ++ agents.filter (fun a => decide (classifyRole a.role = Bucket.tests))
        backend :=
          acc.backend ++ agents.filter (fun a => decide (classifyRole a.role = Bucket.backend))
        frontend :=
          acc.frontend ++ agents.filter (fun a => decide (classifyRole a.role = Bucket.frontend))
        other :=
          acc.other ++ agents.filter (fun a => decide (classifyRole a.role = Bucket.other)) } by
    simpa [bucketLoop] using h {}
  induction agents with
  | nil => intro acc; simp
  | cons a rest ih =>
    intro acc
    rw [List.foldl_cons]
    cases hc : classifyRole a.role <;>
      simp [hc, ih, List.filter_cons, List.append_assoc]

theorem bucketSeq_eq_filterMap (l : List AgentEntry) :
    bucketSeq l = l.filterMap prTruthyNum := by
  suffices h : ∀ acc, l.foldl
      (fun s a => if intTruthy a.pr then s ++ [a.pr.getD 0] else s) acc =
      acc ++ l.filterMap prTruthyNum by
    simpa [bucketSeq] using h []
  induction l with
  | nil => simp
  | cons a rest ih =>
    intro acc
    rw [List.foldl_cons, List.filterMap_cons]
    cases ha : a.pr with
    | none =>
      have hred : intTruthy a.pr = false := by rw [ha]; rfl
      have hpt : prTruthyNum a = none := by simp [prTruthyNum, ha]
      simp only [hred, hpt, Bool.false_eq_true, if_false]
      exact ih acc
    | some n =>
      by_cases hn : n = 0
      · subst hn
        have hred : intTruthy (some (0 : Int)) = false := rfl
        have hpt : prTruthyNum a = none := by simp [prTruthyNum, ha]
        simp only [hred, hpt, Bool.false_eq_true, if_false]
        exact ih acc
      · have hred : intTruthy (some n) = true := by simp [intTruthy, hn]
        have hpt : prTruthyNum a = some n := by simp [prTruthyNum, ha, hn]
        simp only [hred, hpt, if_true, Option.getD_some]
        rw [ih (acc ++ [n])]
        simp [List.append_assoc]

/-- C5 (amended): the bucket lists are the stable input-order filters by
the first-matching classification rule; the emitted buckets are the
non-empty ones in the fixed order docs, tests, backend, frontend,
other; and the merge sequence collects, in that same global order,
every PR number that is present and non-zero (the code tests Python
truthiness, so a PR number `0` is skipped). Determinism on equal input
is immediate because `planMergeOrder` is a function of `agents` alone. -/
theorem planMergeOrder_claim (agents : List AgentEntry) :
    (bucketLoop agents).docs =
      agents.filter (fun a => decide (classifyRole a.role = Bucket.docs)) ∧
    (bucketLoop agents).tests =
      agents.filter (fun a => decide (classifyRole a.role = Bucket.tests)) ∧
    (bucketLoop agents).backend =
      agents.filter (fun a => decide (classifyRole a.role = Bucket.backend)) ∧
    (bucketLoop agents).frontend =
      agents.filter (fun a => decide (classifyRole a.role = Bucket.frontend)) ∧
    (bucketLoop agents).other =
      agents.filter (fun a => decide (classifyRole a.role = Bucket.other)) ∧
    (planMergeOrder agents).emitted =
      ([(Bucket.docs, (bucketLoop agents).docs),
        (Bucket.tests, (bucketLoop agents).tests),
        (Bucket.backend, (bucketLoop agents).backend),
        (Bucket.frontend, (bucketLoop agents).frontend),
        (Bucket.other, (bucketLoop agents).other)].filter (fun e => decide (e.2 ≠ []))) ∧
    (planMergeOrder agents).sequence =
      ((bucketLoop agents).docs ++ (bucketLoop agents).tests ++
        (bucketLoop agents).backend ++ (bucketLoop agents).frontend ++
        (bucketLoop agents).other).filterMap prTruthyNum := by
  have hloop := bucketLoop_eq_filters agents
  refine ⟨by rw [hloop], by rw [hloop], by rw [hloop], by rw [hloop], by rw [hloop], ?_, ?_⟩
  · unfold planMergeOrder
    by_cases h1 : (bucketLoop agents).docs = [] <;>
    by_cases h2 : (bucketLoop agents).tests = [] <;>
    by_cases h3 : (bucketLoop agents).backend = [] <;>
    by_cases h4 : (bucketLoop agents).frontend = [] <;>
    by_cases h5 : (bucketLoop agents).other = [] <;>
      simp [h1, h2, h3, h4, h5, List.filter_cons]
  · unfold planMergeOrder
    have hg : ∀ l : List AgentEntry, (if l ≠ [] then bucketSeq l else []) = bucketSeq l := by
      intro l
      by_cases h : l = [] <;> simp [h, bucketSeq]
    simp only [hg]
    simp [bucketSeq_eq_filterMap, List.filterMap_append, List.append_assoc]

/-- C5 counterexample: an agent entry whose PR number is present but
equal to `0` is skipped by the truthiness test, so the sequence misses
a present PR number. -/
theorem planMergeOrder_counterexample :
    (planMergeOrder [{ num := 1, role := "API", pr := some 0 }]).sequence = [] ∧
    ([{ num := 1, role := "API", pr := some 0 }] : List AgentEntry).filterMap
      AgentEntry.pr = [0] := by
  constructor <;> rfl

/-! ## Python string order: totality and transitivity -/

theorem charListLe_total : ∀ as bs : List Char,
    (charListLe as bs || charListLe bs as) = true := by
  intro as
  induction as with
  | nil => intro bs; simp [charListLe]
  | cons a as ih =>
    intro bs
    cases bs with
    | nil => simp [charListLe]
    | cons b bs =>
      rcases lt_trichotomy a b with h | h | h
      · simp [charListLe, h]
      · subst h
        simp only [charListLe, lt_irrefl, if_false]
        exact ih bs
      · simp [charListLe, h, lt_asymm h]

theorem charListLe_trans : ∀ as bs cs : List Char, charListLe as bs = true →
    charListLe bs cs = true → charListLe as cs = true := by
  intro as
  induction as with
  | nil => intro bs cs h1 h2; simp [charListLe]
  | cons a as ih =>
    intro bs cs h1 h2
    cases bs with
    | nil => simp [charListLe] at h1
    | cons b bs =>
      cases cs with
      | nil => simp [charListLe] at h2
      | cons c cs =>
        rcases lt_trichotomy a b with hab | hab | hab
        · rcases lt_trichotomy b c with hbc | hbc | hbc
          · simp [charListLe, lt_trans hab hbc]
          · subst hbc; simp [charListLe, hab]
          · simp [charListLe, lt_asymm hbc, hbc] at h2
        · subst hab
          simp only [charListLe, lt_irrefl, if_false] at h1
          rcases lt_trichotomy a c with hac | hac | hac
          · simp [charListLe, hac]
          · subst hac
            simp only [charListLe, lt_irrefl, if_false] at h2 ⊢
            exact ih bs cs h1 h2
          · simp [charListLe, lt_asymm hac, hac] at h2
        · simp [charListLe, lt_asymm hab, hab] at h1

theorem strLe_total (a b : String) : (strLe a b || strLe b a) = true :=
  charListLe_total a.toList b.toList

theorem strLe_trans (a b c : String) (h1 : strLe a b = true) (h2 : strLe b c = true) :
    strLe a c = true :=
  charListLe_trans a.toList b.toList c.toList h1 h2

/-! ## Task-file names: glob, numeric prefix, ordering -/

theorem not_pySpace_of_digit {c : Char} (h : c.isDigit = true) : isPySpace c = false := by
  by_cases h1 : c = ' '
  · subst h1; exact absurd h (by decide)
  by_cases h2 : c = '\t'
  · subst h2; exact absurd h (by decide)
  by_cases h3 : c = '\n'
  · subst h3; exact absurd h (by decide)
  by_cases h4 : c = '\r'
  · subst h4; exact absurd h (by decide)
  by_cases h5 : c = '\x0b'
  · subst h5; exact absurd h (by decide)
  by_cases h6 : c = '\x0c'
  · subst h6; exact absurd h (by decide)
  simp [isPySpace, h1, h2, h3, h4, h5, h6]

theorem trimPyWS_single {c : Char} (h : isPySpace c = false) : trimPyWS [c] = [c] := by
  simp [trimPyWS, List.dropWhile_cons, h]

theorem pyIntOfChars_single_digit {c : Char} (h : c.isDigit = true) :
    pyIntOfChars? [c] = some (Int.ofNat (c.toNat - 48)) := by
  have hplus : c ≠ '+' := by rintro rfl; exact absurd h (by decide)
  have hminus : c ≠ '-' := by rintro rfl; exact absurd h (by decide)
  have hund : ¬c = '_' := by rintro rfl; exact absurd h (by decide)
  have hsp : isPySpace c = false := not_pySpace_of_digit h
  unfold pyIntOfChars?
  rw [trimPyWS_single hsp]
  split
  · rename_i rest heq
    injection heq with heq1 heq2
    exact absurd heq1 hplus
  · rename_i rest heq
    injection heq with heq1 heq2
    exact absurd heq1 hminus
  · unfold pyIntBody? pyDigitsTail
    simp [h, digitsVal, hund]

theorem taskAgentNum_matched {name : String} (hm : matchesTaskGlob name = true) :
    ∃ c rest, name.toList = c :: '_' :: rest ∧ c.isDigit = true ∧
      taskAgentNum name = Int.ofNat (c.toNat - 48) := by
  unfold matchesTaskGlob at hm
  split at hm
  · rename_i c rest heq
    have hd : c.isDigit = true := ((Bool.and_eq_true _ _).mp hm).1
    refine ⟨c, rest, heq, hd, ?_⟩
    unfold taskAgentNum
    rw [heq]
    have hcu : ¬c = '_' := by rintro rfl; exact absurd hd (by decide)
    have h1 : splitOnChar '_' ('_' :: rest) = [] :: splitOnChar '_' rest := by
      rw [splitOnChar]
      simp
    have hsplit : splitOnChar '_' (c :: '_' :: rest) = [c] :: splitOnChar '_' rest := by
      rw [splitOnChar, h1]
      simp [hcu]
    rw [hsplit]
    simp [pyIntOfChars_single_digit hd]
  · simp at hm

theorem taskAgentNum_mono {a b : String} (ha : matchesTaskGlob a = true)
    (hb : matchesTaskGlob b = true) (hle : strLe a b = true) :
    taskAgentNum a ≤ taskAgentNum b := by
  obtain ⟨ca, ra, hea, hda, hva⟩ := taskAgentNum_matched ha
  obtain ⟨cb, rb, heb, hdb, hvb⟩ := taskAgentNum_matched hb
  rw [hva, hvb]
  unfold strLe at hle
  rw [hea, heb] at hle
  rcases lt_trichotomy ca cb with h | h | h
  · have hn : ca.toNat < cb.toNat := h
    exact Int.ofNat_le.mpr (Nat.sub_le_sub_right (Nat.le_of_lt hn) 48)
  · rw [h]
  · rw [charListLe] at hle
    simp [lt_asymm h, h] at hle

/-- The discovered task files are lexicographically sorted, hence
pairwise ascending in their numeric prefix. -/
theorem discoveredTasks_sorted (env : Env) :
    (discoveredTasks env).Pairwise (fun a b => taskAgentNum a ≤ taskAgentNum b) := by
  have hp := pairwise_insertionSortB strLe strLe_total
    (fun a b c => strLe_trans a b c) (env.promptFiles.filter matchesTaskGlob)
  have hmem : ∀ x ∈ discoveredTasks env, matchesTaskGlob x = true := by
    intro x hx
    have : x ∈ env.promptFiles.filter matchesTaskGlob :=
      ((insertionSortB_perm strLe _).mem_iff).mp hx
    exact List.of_mem_filter this
  unfold discoveredTasks at hmem ⊢
  refine List.Pairwise.imp_of_mem ?_ hp
  intro x y hx hy hxy
  exact taskAgentNum_mono (hmem x hx) (hmem y hy) hxy

/-! ## Sequential launch: step lemmas -/

theorem handle_launch_terminal (env : Env) (agentId : Option Int) (s : WorkflowState)
    (hsetup : env.setupOk = true) (hdir : env.promptsDirExists = true)
    (hrc : s.review_complete = true) (hne : discoveredTasks env ≠ [])
    (hge : s.current_task_index ≥ ((discoveredTasks env).length : Int)) :
    handle_launch env true agentId s =
      ⟨.allComplete (discoveredTasks env).length, none⟩ := by
  unfold handle_launch
  simp [hsetup, hrc, hdir, hne, hge]

theorem seqStep_of_lt (env : Env) (t : String) (s : WorkflowState)
    (hsetup : env.setupOk = true) (hdir : env.promptsDirExists = true)
    (hrc : s.review_complete = true)
    (hge : 0 ≤ s.current_task_index)
    (hlt : s.current_task_index < ((discoveredTasks env).length : Int)) :
    seqStep env t s =
      (.task s.current_task_index (discoveredTasks env).length
        ((discoveredTasks env).getD s.current_task_index.toNat ""),
       { s with mode := "sequential",
                current_task_index := s.current_task_index + 1,
                phase := "launch", status := "launching", last_updated := t }) := by
  have hne : ¬discoveredTasks env = [] := by
    intro h
    rw [h] at hlt
    simp only [List.length_nil, Nat.cast_zero] at hlt
    omega
  have hnge : ¬(s.current_task_index ≥ ((discoveredTasks env).length : Int)) :=
    not_le.mpr hlt
  have hlt2 : s.current_task_index.toNat < (discoveredTasks env).length := by omega
  have hsome : (discoveredTasks env).get? s.current_task_index.toNat =
      some ((discoveredTasks env).getD s.current_task_index.toNat "") := by
    rw [List.getD_eq_get?]
    cases hg : (discoveredTasks env).get? s.current_task_index.toNat with
    | none =>
      rw [List.get?_eq_none] at hg
      omega
    | some v => rfl
  have hidx : pyIdx (discoveredTasks env) s.current_task_index =
      some ((discoveredTasks env).getD s.current_task_index.toNat "") := by
    unfold pyIdx
    rw [if_pos hge, hsome]
  unfold seqStep handle_launch
  simp [hsetup, hrc, hdir, hne, hnge, hidx]

theorem seqStep_terminal (env : Env) (t : String) (s : WorkflowState)
    (hsetup : env.setupOk = true) (hdir : env.promptsDirExists = true)
    (hrc : s.review_complete = true) (hne : discoveredTasks env ≠ [])
    (hge : s.current_task_index ≥ ((discoveredTasks env).length : Int)) :
    seqStep env t s = (.allComplete (discoveredTasks env).length, s) := by
  unfold seqStep
  rw [handle_launch_terminal env none s hsetup hdir hrc hne hge]

theorem runSeq_inv (env : Env) (ts : Nat → String) (s0 : WorkflowState)
    (hsetup : env.setupOk = true) (hdir : env.promptsDirExists = true)
    (hrc : s0.review_complete = true) (hidx : s0.current_task_index = 0) :
    ∀ k : Nat, k ≤ (discoveredTasks env).length →
      (runSeq env ts s0 k).review_complete = true ∧
      (runSeq env ts s0 k).current_task_index = (k : Int) := by
  intro k
  induction k with
  | zero =>
    intro _
    refine ⟨hrc, ?_⟩
    rw [runSeq, hidx]
    simp
  | succ k ih =>
    intro hk
    obtain ⟨h1, h2⟩ := ih (Nat.le_of_succ_le hk)
    have hlt : (runSeq env ts s0 k).current_task_index <
        ((discoveredTasks env).length : Int) := by
      rw [h2]
      exact_mod_cast Nat.lt_of_succ_le hk
    have hge0 : 0 ≤ (runSeq env ts s0 k).current_task_index := by
      rw [h2]
      exact_mod_cast Nat.zero_le k
    rw [runSeq, seqStep_of_lt env (ts k) _ hsetup hdir h1 hge0 hlt]
    refine ⟨h1, ?_⟩
    show (runSeq env ts s0 k).current_task_index + 1 = ((k + 1 : Nat) : Int)
    omega

/-- C2 (amended): for a project whose `AGENT_PROMPTS/` glob discovers at
least one task file, the sequential launch calls return the discovered
tasks one per call, in discovery order — which is ascending in the
numeric prefix — incrementing `currentTaskIndex` by exactly one per
call; the call after the last task returns the terminal all-complete
result and leaves the persisted state (including `currentTaskIndex`)
completely unchanged. The amendment restricts the claim to a non-empty
task list: with zero discovered task files the handler returns the
no-prompt-files warning, not the all-complete result. -/
theorem sequential_launch_claim (env : Env) (ts : Nat → String) (s0 : WorkflowState)
    (hsetup : env.setupOk = true) (hdir : env.promptsDirExists = true)
    (hrc : s0.review_complete = true) (hidx : s0.current_task_index = 0)
    (hne : discoveredTasks env ≠ []) :
    (∀ k : Nat, k < (discoveredTasks env).length →
      seqOutcome env ts s0 k =
        .task (k : Int) (discoveredTasks env).length ((discoveredTasks env).getD k "") ∧
      (runSeq env ts s0 (k + 1)).current_task_index = (k : Int) + 1) ∧
    seqOutcome env ts s0 (discoveredTasks env).length =
      .allComplete (discoveredTasks env).length ∧
    runSeq env ts s0 ((discoveredTasks env).length + 1) =
      runSeq env ts s0 (discoveredTasks env).length ∧
    (discoveredTasks env).Pairwise (fun a b => taskAgentNum a ≤ taskAgentNum b) := by
  have hinv := runSeq_inv env ts s0 hsetup hdir hrc hidx
  refine ⟨?_, ?_, ?_, discoveredTasks_sorted env⟩
  · intro k hk
    obtain ⟨h1, h2⟩ := hinv k (Nat.le_of_lt hk)
    have hlt : (runSeq env ts s0 k).current_task_index <
        ((discoveredTasks env).length : Int) := by
      rw [h2]
      exact_mod_cast hk
    have hge0 : 0 ≤ (runSeq env ts s0 k).current_task_index := by
      rw [h2]
      exact_mod_cast Nat.zero_le k
    have hstep := seqStep_of_lt env (ts k) _ hsetup hdir h1 hge0 hlt
    constructor
    · unfold seqOutcome
      rw [hstep, h2]
      simp
    · rw [runSeq, hstep]
      show (runSeq env ts s0 k).current_task_index + 1 = (k : Int) + 1
      omega
  · obtain ⟨h1, h2⟩ := hinv (discoveredTasks env).length (Nat.le_refl _)
    have hge : (runSeq env ts s0 (discoveredTasks env).length).current_task_index ≥
        ((discoveredTasks env).length : Int) := h2.ge
    unfold seqOutcome
    rw [seqStep_terminal env _ _ hsetup hdir h1 hne hge]
  · obtain ⟨h1, h2⟩ := hinv (discoveredTasks env).length (Nat.le_refl _)
    have hge : (runSeq env ts s0 (discoveredTasks env).length).current_task_index ≥
        ((discoveredTasks env).length : Int) := h2.ge
    rw [runSeq, seqStep_terminal env _ _ hsetup hdir h1 hne hge]

/-- C2 witness: a concrete project with two task files; the first call
returns task file `1_a.md`. -/
theorem sequential_launch_claim_witness :
    seqOutcome ⟨true, true, ["2_b.md", "1_a.md", "README.md"], true, "p", "/p", "T"⟩
      (fun _ => "t") { project := "p", project_path := "/p", review_complete := true } 0 =
      .task 0 2 "1_a.md" := by
  have h := sequential_launch_claim
    ⟨true, true, ["2_b.md", "1_a.md", "README.md"], true, "p", "/p", "T"⟩
    (fun _ => "t") { project := "p", project_path := "/p", review_complete := true }
    rfl rfl rfl rfl (by decide)
  have h0 := (h.1 0 (by decide)).1
  exact h0.trans (by decide)

/-- C2 counterexample: with zero discovered task files (N = 0) the
(N+1)-th call returns the no-prompt-files warning, not the terminal
all-complete result the claim requires. -/
theorem sequential_launch_counterexample :
    seqOutcome ⟨true, true, [], true, "p", "/p", "T"⟩ (fun _ => "t")
      { project := "p", project_path := "/p", review_complete := true } 0 =
      .noPromptFiles ∧
    seqOutcome ⟨true, true, [], true, "p", "/p", "T"⟩ (fun _ => "t")
      { project := "p", project_path := "/p", review_complete := true } 0 ≠
      .allComplete 0 := by
  constructor <;> decide

/-- C3: whenever the persisted state has `reviewComplete == false` (and
the setup files are present), `handle_launch` returns the guidance
message and does not call `save_state`, in both sequential and parallel
mode: the persisted state is completely unchanged. -/
theorem launch_requires_review_claim (env : Env) (nextOnly : Bool)
    (agentId : Option Int) (s : WorkflowState) (hsetup : env.setupOk = true)
    (hrc : s.review_complete = false) :
    handle_launch env nextOnly agentId s = ⟨.reviewIncomplete, none⟩ := by
  unfold handle_launch
  simp [hsetup, hrc]

/-- C3 witness: a concrete fresh state (its `review_complete` defaults
to `false`) in sequential mode. -/
theorem launch_requires_review_claim_witness :
    handle_launch ⟨true, true, ["1_a.md"], true, "p", "/p", "T"⟩ true none
      { project := "p", project_path := "/p" } = ⟨.reviewIncomplete, none⟩ :=
  launch_requires_review_claim _ true none _ rfl rfl

/-- C9: in sequential mode with `currentTaskIndex` at or past the task
count, `handle_launch` returns the terminal result with no `save_state`
call at all: the state file is untouched, and in particular the
in-memory `mode = "sequential"` assignment made earlier in the handler
is never persisted. -/
theorem launch_terminal_no_save_claim (env : Env) (agentId : Option Int)
    (s : WorkflowState) (hsetup : env.setupOk = true)
    (hdir : env.promptsDirExists = true) (hrc : s.review_complete = true)
    (hne : discoveredTasks env ≠ [])
    (hge : s.current_task_index ≥ ((discoveredTasks env).length : Int)) :
    handle_launch env true agentId s =
      ⟨.allComplete (discoveredTasks env).length, none⟩ :=
  handle_launch_terminal env agentId s hsetup hdir hrc hne hge

/-- C9 witness: two discovered tasks, cursor already at 2. -/
theorem launch_terminal_no_save_claim_witness :
    handle_launch ⟨true, true, ["1_a.md", "2_b.md"], true, "p", "/p", "T"⟩ true none
      { project := "p", project_path := "/p", review_complete := true,
        current_task_index := 2 } = ⟨.allComplete 2, none⟩ := by
  have h := launch_terminal_no_save_claim
    ⟨true, true, ["1_a.md", "2_b.md"], true, "p", "/p", "T"⟩ none
    { project := "p", project_path := "/p", review_complete := true,
      current_task_index := 2 } rfl rfl rfl (by decide) (by decide)
  rw [h]
  rfl

/-! ## Conflict detection: the claim-shaped statements -/

/-- C1 (amended): for PR lists whose per-PR file lists are
duplicate-free, `detect_conflicts` returns the empty list iff every
file path is touched by at most one PR; on the empty input it returns
the empty list. The duplicate-free restriction is forced by the code:
the mapping counts occurrences, so a single PR listing one path twice
already produces a conflict record. -/
theorem detect_conflicts_claim :
    (∀ prs : List PRRec, (∀ pr ∈ prs, pr.files.Nodup) →
      (detect_conflicts prs = [] ↔ atMostOnePRPerFile prs)) ∧
    detect_conflicts [] = [] :=
  ⟨detect_conflicts_empty_iff, rfl⟩

/-- C1 witness: two PRs with disjoint duplicate-free file lists; the
theorem applied to them yields the at-most-one-PR property from the
computed empty conflict list. -/
theorem detect_conflicts_claim_witness :
    atMostOnePRPerFile
      [{ number := 1, headRefName := "agent/1-a", files := ["a.md", "b.py"] },
       { number := 2, headRefName := "agent/2-b", files := ["c.md"] }] :=
  (detect_conflicts_claim.1 _ (by decide)).mp (by decide)

/-- C1 counterexample: a single PR listing `a.md` twice. Every file
path is touched by at most one PR (there is only one PR), yet the
conflict list is non-empty, refuting the unrestricted iff. -/
theorem detect_conflicts_counterexample :
    atMostOnePRPerFile
      [{ number := 1, headRefName := "agent/1-a", files := ["a.md", "a.md"] }] ∧
    detect_conflicts
      [{ number := 1, headRefName := "agent/1-a", files := ["a.md", "a.md"] }] ≠ [] := by
  constructor
  · intro p
    exact le_trans (List.length_filter_le _ _) (by decide)
  · decide

/-! ## The operation-level phase and iteration behaviour -/

theorem handle_review_state_fields (s : WorkflowState) (w : String) :
    (handle_review_state s w).phase = "review" ∧
    (handle_review_state s w).status = "reviewing" ∧
    (handle_review_state s w).iteration = s.iteration := by
  unfold handle_review_state
  by_cases h : w ≠ "" <;> simp [h]

theorem handle_launch_saved (env : Env) (nextOnly : Bool) (agentId : Option Int)
    (s : WorkflowState) :
    (handle_launch env nextOnly agentId s).saved = none ∨
    ∃ s2, (handle_launch env nextOnly agentId s).saved = some s2 ∧
      s2.phase = "launch" ∧ s2.iteration = s.iteration := by
  by_cases hsetup : env.setupOk = true
  case neg => left; unfold handle_launch; simp [hsetup]
  by_cases hrc : s.review_complete = true
  case neg => left; unfold handle_launch; simp [hsetup, hrc]
  by_cases hdir : env.promptsDirExists = true
  case neg => left; unfold handle_launch; simp [hsetup, hrc, hdir]
  by_cases hne : discoveredTasks env = []
  case pos => left; unfold handle_launch; simp [hsetup, hrc, hdir, hne]
  cases nextOnly with
  | false =>
    right
    unfold handle_launch
    simp only [hsetup, hrc, hdir, hne, Bool.not_true, Bool.false_eq_true, if_false,
      ite_false, ite_true]
    exact ⟨_, rfl, rfl, rfl⟩
  | true =>
    by_cases hge : s.current_task_index ≥ ((discoveredTasks env).length : Int)
    · left
      unfold handle_launch
      simp [hsetup, hrc, hdir, hne, hge]
    · cases hidx : pyIdx (discoveredTasks env) s.current_task_index with
      | none =>
        left
        unfold handle_launch
        simp [hsetup, hrc, hdir, hne, hge, hidx]
      | some name =>
        right
        unfold handle_launch
        simp only [hsetup, hrc, hdir, hne, hge, hidx, Bool.not_true, Bool.false_eq_true,
          if_false, ite_false, ite_true]
        exact ⟨_, rfl, rfl, rfl⟩

/-- C6 (amended): every operation drives `phase` to its own fixed
target irrespective of the current phase — review (with setup present)
to "review", launch either leaves the persisted state untouched or
saves it with phase "launch", integrate (with setup present) to
"integrate", clean (with setup and state file present) to "idle" with
iteration reset to 0 and the agent list cleared — while `checkin` and
`decide` never mutate the persisted state; no operation ever sets
`phase` to "decide", and no operation ever changes `iteration` except
`clean`, which resets it to 0. In particular the review operation is
valid from any phase and can move the phase backward (e.g. integrate
to review) without any iteration increment, so the claimed
monotonicity invariant does not hold. -/
theorem applyOp_claim (env : Env) (s : WorkflowState) :
    (∀ w, env.setupOk = true →
      (applyOp env (.review w) s).phase = "review" ∧
      (applyOp env (.review w) s).iteration = s.iteration) ∧
    (∀ nextOnly agentId,
      applyOp env (.launch nextOnly agentId) s = s ∨
      ((applyOp env (.launch nextOnly agentId) s).phase = "launch" ∧
        (applyOp env (.launch nextOnly agentId) s).iteration = s.iteration)) ∧
    (env.setupOk = true →
      (applyOp env .integrate s).phase = "integrate" ∧
      (applyOp env .integrate s).iteration = s.iteration) ∧
    (env.setupOk = true → env.stateFileExists = true →
      (applyOp env .clean s).phase = "idle" ∧
      (applyOp env .clean s).iteration = 0 ∧
      (applyOp env .clean s).agents = []) ∧
    applyOp env .checkin s = s ∧
    applyOp env .decide s = s ∧
    (∀ op, (applyOp env op s).phase = s.phase ∨ (applyOp env op s).phase ≠ "decide") ∧
    (∀ op, (applyOp env op s).iteration = s.iteration ∨
      (op = Op.clean ∧ (applyOp env op s).iteration = 0)) := by
  refine ⟨?_, ?_, ?_, ?_, rfl, rfl, ?_, ?_⟩
  · intro w hs
    obtain ⟨hp, _, hi⟩ := handle_review_state_fields s w
    unfold applyOp
    simp [hs, hp, hi]
  · intro nextOnly agentId
    unfold applyOp
    rcases handle_launch_saved env nextOnly agentId s with h | ⟨s2, h, hp, hi⟩
    · left; simp [h]
    · right; simp [h, hp, hi]
  · intro hs
    unfold applyOp
    simp [hs]
  · intro hs hf
    unfold applyOp
    simp [hs, hf, WorkflowState.empty]
  · intro op
    cases op with
    | review w =>
      unfold applyOp
      by_cases hs : env.setupOk = true
      · right
        obtain ⟨hp, _, _⟩ := handle_review_state_fields s w
        simp [hs, hp]
      · left; simp [hs]
    | launch nextOnly agentId =>
      unfold applyOp
      rcases handle_launch_saved env nextOnly agentId s with h | ⟨s2, h, hp, _⟩
      · left; simp [h]
      · right; simp [h, hp]
    | checkin => left; rfl
    | integrate =>
      unfold applyOp
      by_cases hs : env.setupOk = true
      · right; simp [hs]
      · left; simp [hs]
    | decide => left; rfl
    | clean =>
      unfold applyOp
      by_cases hs : env.setupOk = true <;> by_cases hf : env.stateFileExists = true
      · right
        simp [hs, hf, WorkflowState.empty]
        decide
      · left; simp [hs, hf]
      · left; simp [hs, hf]
      · left; simp [hs, hf]
  · intro op
    cases op with
    | review w =>
      unfold applyOp
      by_cases hs : env.setupOk = true
      · obtain ⟨_, _, hi⟩ := handle_review_state_fields s w
        left; simp [hs, hi]
      · left; simp [hs]
    | launch nextOnly agentId =>
      unfold applyOp
      rcases handle_launch_saved env nextOnly agentId s with h | ⟨s2, h, _, hi⟩
      · left; simp [h]
      · left; simp [h, hi]
    | checkin => left; rfl
    | decide => left; rfl
    | integrate =>
      unfold applyOp
      by_cases hs : env.setupOk = true <;> left <;> simp [hs]
    | clean =>
      by_cases hs : env.setupOk = true <;> by_cases hf : env.stateFileExists = true
      · right
        refine ⟨rfl, ?_⟩
        unfold applyOp
        simp [hs, hf, WorkflowState.empty]
      · left; unfold applyOp; simp [hs, hf]
      · left; unfold applyOp; simp [hs, hf]
      · left; unfold applyOp; simp [hs, hf]

/-- C6 witness: applying the review operation in a set-up project sets
the phase to "review". -/
theorem applyOp_claim_witness :
    (applyOp ⟨true, true, [], true, "p", "/p", "T"⟩ (.review "w")
      (WorkflowState.empty "p" "/p" "T0")).phase = "review" :=
  ((applyOp_claim ⟨true, true, [], true, "p", "/p", "T"⟩
    (WorkflowState.empty "p" "/p" "T0")).1 "w" rfl).1

/-- C6 counterexample: from a fresh state, running integrate and then
review moves the phase backward (integrate has rank 3, review rank 1)
while the iteration stays unchanged at 0, contradicting the claim that
the only backward transition is decide-to-review with an iteration
increment. -/
theorem applyOp_counterexample :
    phaseRank (applyOp ⟨true, true, [], true, "p", "/p", "T"⟩ (.review "")
        (applyOp ⟨true, true, [], true, "p", "/p", "T"⟩ .integrate
          (WorkflowState.empty "p" "/p" "T0"))).phase <
      phaseRank (applyOp ⟨true, true, [], true, "p", "/p", "T"⟩ .integrate
        (WorkflowState.empty "p" "/p" "T0")).phase ∧
    (applyOp ⟨true, true, [], true, "p", "/p", "T"⟩ (.review "")
        (applyOp ⟨true, true, [], true, "p", "/p", "T"⟩ .integrate
          (WorkflowState.empty "p" "/p" "T0"))).iteration =
      (applyOp ⟨true, true, [], true, "p", "/p", "T"⟩ .integrate
        (WorkflowState.empty "p" "/p" "T0")).iteration := by
  constructor <;> decide

/-- C7 (amended): the cleanup operation rewrites the state file with a
fresh empty state: iteration zero, empty agent list, phase idle — and a
`createdAt` equal to the cleanup timestamp. The `createdAt` of the
replaced state is not preserved, because `handle_clean` builds
`WorkflowState.empty` from scratch. -/
theorem clean_claim (env : Env) (s : WorkflowState) (hsetup : env.setupOk = true)
    (hfile : env.stateFileExists = true) :
    (applyOp env .clean s).iteration = 0 ∧
    (applyOp env .clean s).agents = [] ∧
    (applyOp env .clean s).phase = "idle" ∧
    (applyOp env .clean s).created_at = env.now := by
  unfold applyOp
  simp [hsetup, hfile, WorkflowState.empty]

/-- C7 witness: cleaning a concrete non-trivial state. -/
theorem clean_claim_witness :
    (applyOp ⟨true, true, [], true, "p", "/p", "T9"⟩ .clean
      { project := "p", project_path := "/p", phase := "integrate", iteration := 4,
        created_at := "T0" }).phase = "idle" :=
  (clean_claim ⟨true, true, [], true, "p", "/p", "T9"⟩
    { project := "p", project_path := "/p", phase := "integrate", iteration := 4,
      created_at := "T0" } rfl rfl).2.2.1

/-- C7 counterexample: cleaning a state created at `2020-01-01...` with
the clock at `2025-06-01...` yields a state whose `createdAt` is the
cleanup time, not the original creation time. -/
theorem clean_counterexample :
    (applyOp ⟨true, true, [], true, "p", "/p", "2025-06-01T00:00:00+00:00"⟩ .clean
      { project := "p", project_path := "/p",
        created_at := "2020-01-01T00:00:00+00:00" }).created_at ≠
      "2020-01-01T00:00:00+00:00" := by
  decide

/-! ## State serialisation round trip -/

theorem decodeIntList_map (l : List Int) :
    decodeIntList (l.map JValue.jint) = some l := by
  induction l with
  | nil => rfl
  | cons n rest ih => simp [decodeIntList, ih]

theorem decodeWave_encodeWave (w : WaveInfo) : decodeWave (encodeWave w) = some w := by
  obtain ⟨number, name, agents, sa, ca, status⟩ := w
  cases sa <;> cases ca <;>
    simp [decodeWave, encodeWave, jLookup, getIntD, getStrD, getOptStr, encodeOptStr,
      decodeIntList_map]

theorem decodeAgent_encodeAgent (a : AgentInfo) :
    decodeAgent (.jobj (encodeAgent a)) = some a := by
  obtain ⟨id, role, slug, branch, status, sa, ca, pr, wave⟩ := a
  cases sa <;> cases ca <;> cases pr <;>
    simp [decodeAgent, encodeAgent, jLookup, getStrReq, getStrD, getIntD, getOptStr,
      getOptInt, encodeOptStr, encodeOptInt]

theorem decodeAgents_map (l : List AgentInfo) :
    decodeAgents (l.map (fun a => JValue.jobj (encodeAgent a))) = some l := by
  induction l with
  | nil => rfl
  | cons a rest ih => simp [decodeAgents, decodeAgent_encodeAgent, ih]

theorem decodeHistory_map (l : List (List (String × JValue))) :
    decodeHistory (l.map JValue.jobj) = some l := by
  induction l with
  | nil => rfl
  | cons f rest ih => simp [decodeHistory, ih]

theorem decodeState_encodeState (s : WorkflowState) :
    decodeState (encodeState s) = some s := by
  obtain ⟨project, ppath, phase, iteration, status, tech, rc, mode, cti, wave, agents,
    history, ca, lu⟩ := s
  cases tech <;> cases wave <;>
    simp [decodeState, encodeState, jLookup, getStrReq, getStrD, getIntD, getBoolD,
      getOptStr, getOptInt, encodeOptStr, decodeAgents_map, decodeHistory_map,
      decodeWave_encodeWave]

/-- C8: saving a state and loading it back reproduces every field
except `lastUpdated`, which is refreshed to the save timestamp (and so
advances exactly as the wall clock does); in particular `createdAt` is
unchanged by the round trip. -/
theorem save_load_roundtrip_claim (s : WorkflowState) (saveTime : String)
    (projectName projectPath loadTime : String) :
    load_state_model projectName projectPath loadTime
      (some (save_state_model s saveTime)) = { s with last_updated := saveTime } := by
  unfold load_state_model save_state_model
  simp [decodeState_encodeState]

end Maw
